import Mathlib

/-!
Verification of the goimpcore EIS fitting service against its specification.

The Go sources are shallowly embedded: float64 values become real numbers,
complex128 becomes the Mathlib complex numbers, Go panics become `Option`
or `Except` failures, and the external gonum/lm optimizers are abstracted
as oracles returning either a point with its objective value or an error.
The IEEE special values NaN and Inf of float64 have no counterpart in the
real numbers; the +Inf sentinel stored in `Result.Min` is modelled by
`EReal`, and branches reachable only through NaN propagation
(for example the tanh NaN-replacement in the FLW element) are noted at the
definition they concern.
-/

namespace Goimp

/-! ## Circuit evaluator (goimpcore circuit.go, served from src/pkg/server/server.go)

`mode` with the SERIES/PARALLEL constants, `changeMode` and `sum` transcribe
the Go declarations of the same names.  `CircuitImpedance` iterates over the
code characters keeping the Go loop variables `mode`, `stack`, `tmp`, `i` in
an explicit state record; the Go panic on popping an empty stack is the
`none` outcome.  Go indexing `values[i]` is modelled with `List.getD`; runs
in which every read is in bounds coincide with the Go behaviour. -/

inductive Mode where
  | SERIES : Mode
  | PARALLEL : Mode
deriving DecidableEq

def changeMode : Mode → Mode
  | Mode.SERIES => Mode.PARALLEL
  | Mode.PARALLEL => Mode.SERIES

/-- Transcription of the Go `sum`: series adds, parallel combines through
admittances with a zero impedance contributing zero admittance. -/
noncomputable def sum (z1 z2 : ℂ) (m : Mode) : ℂ :=
  match m with
  | Mode.SERIES => z1 + z2
  | Mode.PARALLEL =>
      let s1 : ℂ := if z1 = 0 then 0 else 1 / z1
      let s2 : ℂ := if z2 = 0 then 0 else 1 / z2
      1 / (s1 + s2)

structure EvalState where
  mode : Mode
  stack : List ℂ
  tmp : ℂ
  i : ℕ

/-- Go `complex(0,1)*complex(w,0)`. -/
noncomputable def jw (w : ℝ) : ℂ := Complex.I * (w : ℂ)

/-- Principal complex square root, as computed by Go `cmplx.Sqrt`. -/
noncomputable def csqrt (z : ℂ) : ℂ := z ^ ((1 : ℂ) / 2)

/-- One character of the interpreter loop of Go `CircuitImpedance`.  The
Go `switch` falls through to the unconditional `i++` for characters outside
the element alphabet; `(` and `)` use `continue` and leave `i` unchanged.
The NaN check on the FLW tanh exists only for float64 and is dropped here. -/
noncomputable def stepChar (values : List ℝ) (w : ℝ) (st : EvalState) (c : Char) :
    Option EvalState :=
  if c = '(' then
    some ⟨changeMode st.mode, st.tmp :: st.stack, 0, st.i⟩
  else if c = ')' then
    match st.stack with
    | [] => none
    | fromStack :: rest =>
        let m := changeMode st.mode
        some ⟨m, rest, sum st.tmp fromStack m, st.i⟩
  else if c = 'r' then
    some ⟨st.mode, st.stack, sum st.tmp ((values.getD st.i 0 : ℝ) : ℂ) st.mode, st.i + 1⟩
  else if c = 'c' then
    some ⟨st.mode, st.stack,
      sum st.tmp (1 / (jw w * ((values.getD st.i 0 : ℝ) : ℂ))) st.mode, st.i + 1⟩
  else if c = 'l' then
    some ⟨st.mode, st.stack,
      sum st.tmp (jw w * ((values.getD st.i 0 : ℝ) : ℂ)) st.mode, st.i + 1⟩
  else if c = 'w' then
    some ⟨st.mode, st.stack,
      sum st.tmp (1 / (csqrt (jw w) * ((values.getD st.i 0 : ℝ) : ℂ))) st.mode, st.i + 1⟩
  else if c = 'q' then
    some ⟨st.mode, st.stack,
      sum st.tmp (1 / (jw w ^ (((values.getD (st.i + 1) 0 : ℝ) : ℂ)) *
        ((values.getD st.i 0 : ℝ) : ℂ))) st.mode, st.i + 2⟩
  else if c = 'o' then
    some ⟨st.mode, st.stack,
      sum st.tmp (Complex.tanh (csqrt (jw w) * ((values.getD (st.i + 1) 0 : ℝ) : ℂ)) /
        (csqrt (jw w) * ((values.getD st.i 0 : ℝ) : ℂ))) st.mode, st.i + 2⟩
  else if c = 't' then
    some ⟨st.mode, st.stack,
      sum st.tmp ((1 / Complex.tanh (csqrt (jw w) * ((values.getD (st.i + 1) 0 : ℝ) : ℂ))) /
        (csqrt (jw w) * ((values.getD st.i 0 : ℝ) : ℂ))) st.mode, st.i + 2⟩
  else if c = 'g' then
    some ⟨st.mode, st.stack,
      sum st.tmp ((((values.getD (st.i + 1) 0 : ℝ) : ℂ) + jw w) ^ ((-(1 / 2) : ℝ) : ℂ) /
        ((values.getD st.i 0 : ℝ) : ℂ)) st.mode, st.i + 2⟩
  else if c = 'f' then
    some ⟨st.mode, st.stack,
      sum st.tmp ((((values.getD (st.i + 1) 0 : ℝ) : ℂ) + jw w) ^
          ((-(values.getD (st.i + 2) 0) : ℝ) : ℂ) /
        ((values.getD st.i 0 : ℝ) : ℂ)) st.mode, st.i + 2 + 1⟩
  else
    some ⟨st.mode, st.stack, st.tmp, st.i + 1⟩

noncomputable def runCode (values : List ℝ) (w : ℝ) :
    List Char → EvalState → Option EvalState
  | [], st => some st
  | c :: rest, st =>
      match stepChar values w st c with
      | none => none
      | some st2 => runCode values w rest st2

noncomputable def evalFreq (code : List Char) (values : List ℝ) (freq : ℝ) : Option ℂ :=
  (runCode values (2 * Real.pi * freq) code ⟨Mode.SERIES, [], 0, 0⟩).map (·.tmp)

/-- Go `CircuitImpedance`: one complex value per frequency, returned as a
real/imaginary pair; any panic during evaluation aborts the whole call. -/
noncomputable def CircuitImpedance (code : List Char) (freqs : List ℝ) (values : List ℝ) :
    Option (List (ℝ × ℝ)) :=
  freqs.mapM (fun f => (evalFreq code values f).map (fun z => (z.re, z.im)))

/-- The element alphabet of the circuit description language (spec section 3). -/
def elementAlphabet : List Char :=
  ['r', 'c', 'l', 'w', 'q', 'o', 't', 'g', 'f', '(', ')']

/-- How far the Go loop advances the parameter index for one character. -/
def charAdvance (c : Char) : ℕ :=
  if c = '(' then 0
  else if c = ')' then 0
  else if c = 'r' then 1
  else if c = 'c' then 1
  else if c = 'l' then 1
  else if c = 'w' then 1
  else if c = 'q' then 2
  else if c = 'o' then 2
  else if c = 't' then 2
  else if c = 'g' then 2
  else if c = 'f' then 3
  else 1

def advance (code : List Char) : ℕ := (code.map charAdvance).sum

/-! ## Specification-side circuit evaluator (spec section 4.1)

An independent rendering of the evaluator as the specification words it:
an admittance function treating zero as zero admittance, a combination
function dispatching on the mode, the element table, parentheses that push,
reset and toggle, and a closing parenthesis that pops, toggles back and
combines under the resulting mode.  Unknown characters are skipped, as the
specification states.  The theorem for claim C1 compares this function with
the transcription `CircuitImpedance` above. -/

noncomputable def specAdmittance (z : ℂ) : ℂ := if z = 0 then 0 else 1 / z

noncomputable def specCombine (m : Mode) (za zb : ℂ) : ℂ :=
  match m with
  | Mode.SERIES => za + zb
  | Mode.PARALLEL => 1 / (specAdmittance za + specAdmittance zb)

/-- The element table of spec section 4.1: impedance together with arity. -/
noncomputable def specElement (c : Char) (values : List ℝ) (i : ℕ) (w : ℝ) :
    Option (ℂ × ℕ) :=
  let p : ℕ → ℂ := fun k => ((values.getD k 0 : ℝ) : ℂ)
  if c = 'r' then some (p i, 1)
  else if c = 'c' then some (1 / (jw w * p i), 1)
  else if c = 'l' then some (jw w * p i, 1)
  else if c = 'w' then some (1 / (csqrt (jw w) * p i), 1)
  else if c = 'q' then some (1 / (jw w ^ p (i + 1) * p i), 2)
  else if c = 'o' then some (Complex.tanh (csqrt (jw w) * p (i + 1)) / (csqrt (jw w) * p i), 2)
  else if c = 't' then some ((1 / Complex.tanh (csqrt (jw w) * p (i + 1))) / (csqrt (jw w) * p i), 2)
  else if c = 'g' then some ((p (i + 1) + jw w) ^ ((-(1 / 2) : ℝ) : ℂ) / p i, 2)
  else if c = 'f' then some ((p (i + 1) + jw w) ^ ((-(values.getD (i + 2) 0) : ℝ) : ℂ) / p i, 3)
  else none

noncomputable def specStep (values : List ℝ) (w : ℝ) (st : EvalState) (c : Char) :
    Option EvalState :=
  if c = '(' then
    some ⟨changeMode st.mode, st.tmp :: st.stack, 0, st.i⟩
  else if c = ')' then
    match st.stack with
    | [] => none
    | popped :: rest =>
        let m := changeMode st.mode
        some ⟨m, rest, specCombine m st.tmp popped, st.i⟩
  else
    match specElement c values st.i w with
    | some (z, arity) => some ⟨st.mode, st.stack, specCombine st.mode st.tmp z, st.i + arity⟩
    | none => some st

noncomputable def specRun (values : List ℝ) (w : ℝ) :
    List Char → EvalState → Option EvalState
  | [], st => some st
  | c :: rest, st =>
      match specStep values w st c with
      | none => none
      | some st2 => specRun values w rest st2

noncomputable def specCircuitImpedance (code : List Char) (freqs : List ℝ)
    (values : List ℝ) : Option (List (ℝ × ℝ)) :=
  freqs.mapM (fun f =>
    ((specRun values (2 * Real.pi * f) code ⟨Mode.SERIES, [], 0, 0⟩).map (·.tmp)).map
      (fun z => (z.re, z.im)))

/-! ## Objective (goimpcore solver.go, src/unnamed/part_014)

`chiSq` transcribes the Go `ChiSq`; the panic on a length mismatch is the
`Except.error` outcome.  The specification-side `specChiSq` renders the
claim wording for C2 as an indexed sum normalized by the point count. -/

inductive Weighting where
  | MODULUS : Weighting
  | UNITY : Weighting
deriving DecidableEq

noncomputable def chiSqPoint (w : Weighting) (o c : ℝ × ℝ) : ℝ :=
  let d2 := (o.1 - c.1) ^ 2 + (o.2 - c.2) ^ 2
  match w with
  | Weighting.UNITY => d2
  | Weighting.MODULUS =>
      let weight := Real.sqrt (o.1 ^ 2 + o.2 ^ 2)
      if weight > 0 then d2 / weight ^ 2 else d2

noncomputable def chiSq (observed calculated : List (ℝ × ℝ)) (w : Weighting) :
    Except String ℝ :=
  if observed.length ≠ calculated.length then
    Except.error "solver chiSq: slice length mismatch"
  else
    Except.ok (((observed.zip calculated).foldl (fun acc oc => acc + chiSqPoint w oc.1 oc.2) 0) /
      (observed.length : ℝ))

/-- Specification-side chi-square for claim C2: the sum over point indices of
the weighted squared residual, divided by the number of points. -/
noncomputable def specChiSq (observed calculated : List (ℝ × ℝ)) (w : Weighting) : ℝ :=
  (∑ i ∈ Finset.range observed.length,
    chiSqPoint w (observed.getD i (0, 0)) (calculated.getD i (0, 0))) /
    (observed.length : ℝ)

/-! ## Fit driver (goimpcore solver.go, src/unnamed/part_014)

The gonum and lm optimizers are external libraries; each inner solver is
parametrized by the outcome the optimizer produced for its call: a point
with objective value, or an error.  For base LM a recovered panic is a
third outcome, because the Go `defer`/`recover` swallows it.  `Result.min`
is an `EReal` so that the Go sentinel `math.Inf(1)` is representable.
Go panics surface as `Except.error`. -/

inductive OptOutcome where
  | ok : List ℝ → ℝ → OptOutcome
  | err : OptOutcome

inductive LMOutcome where
  | ok : List ℝ → LMOutcome
  | err : LMOutcome
  | panicked : LMOutcome

structure Result where
  min : EReal
  params : List ℝ
  status : String
  minUnit : String
  code : List Char

structure SolverState where
  code : List Char
  freqs : List ℝ
  observed : List (ℝ × ℝ)
  initValues : List ℝ
  weighting : Weighting

/-- Behaviour of the black-box Nelder-Mead minimizer for one invocation,
as a function of everything the Go call passes to it. -/
def NMOracle : Type :=
  List Char → List ℝ → List (ℝ × ℝ) → List ℝ → Weighting → OptOutcome

/-- Go `baseNMSolve`: empty initial values or an optimizer error both yield
the ERROR result with `Min = +Inf` and empty params. -/
noncomputable def baseNMSolve (oracle : NMOracle) (code : List Char) (freqs : List ℝ)
    (observed : List (ℝ × ℝ)) (initValues : List ℝ) (w : Weighting) : Result :=
  if initValues.length = 0 then
    ⟨⊤, [], "ERROR", "ChiSq", []⟩
  else
    match oracle code freqs observed initValues w with
    | OptOutcome.err => ⟨⊤, [], "ERROR", "ChiSq", []⟩
    | OptOutcome.ok x f => ⟨(f : EReal), x, "OK", "ChiSq", code⟩

/-- Go `baseGDSolve`: an optimizer error is re-raised with `panic(err)`. -/
noncomputable def baseGDSolve (o : OptOutcome) : Except String Result :=
  match o with
  | OptOutcome.err => Except.error "panic: gradient descent optimizer error"
  | OptOutcome.ok x f => Except.ok ⟨(f : EReal), x, "OK", "ChiSq", []⟩

/-- Go `baseLBFGSSolve`: the error branch returns `Result{Min: Inf,
Status: ERROR}` leaving every other field at its zero value. -/
noncomputable def baseLBFGSSolve (o : OptOutcome) : Result :=
  match o with
  | OptOutcome.err => ⟨⊤, [], "ERROR", "", []⟩
  | OptOutcome.ok x f => ⟨(f : EReal), x, "OK", "ChiSq", []⟩

/-- Go `baseNewtonSolve`: same error shape as L-BFGS. -/
noncomputable def baseNewtonSolve (o : OptOutcome) : Result :=
  match o with
  | OptOutcome.err => ⟨⊤, [], "ERROR", "", []⟩
  | OptOutcome.ok x f => ⟨(f : EReal), x, "OK", "ChiSq", []⟩

/-- Go `baseLMSolve`: an lm error yields the ERROR result; a panic inside
`lm.LM` is recovered by the deferred handler and the function returns the
zero-value `Result`; on success the reported minimum is the chi-square of
the returned point recomputed through `ChiSq`, so a length mismatch or an
evaluation panic propagates. -/
noncomputable def baseLMSolve (code : List Char) (freqs : List ℝ)
    (observed : List (ℝ × ℝ)) (w : Weighting) (o : LMOutcome) : Except String Result :=
  match o with
  | LMOutcome.err => Except.ok ⟨⊤, [], "ERROR", "ChiSq", []⟩
  | LMOutcome.panicked => Except.ok ⟨((0 : ℝ) : EReal), [], "", "", []⟩
  | LMOutcome.ok x =>
      match CircuitImpedance code freqs x with
      | none => Except.error "panic: circuit evaluation"
      | some calculated =>
          match chiSq observed calculated w with
          | Except.error e => Except.error e
          | Except.ok v => Except.ok ⟨(v : EReal), x, "OK", "ChiSq", []⟩

/-- Go `GetElements`: the per-parameter tag list of a circuit code. -/
def getElements (code : List Char) : List String :=
  code.foldl (fun acc c =>
    if c = 'r' then acc ++ ["r"]
    else if c = 'c' then acc ++ ["c"]
    else if c = 'l' then acc ++ ["l"]
    else if c = 'w' then acc ++ ["w"]
    else if c = 'q' then acc ++ ["qy", "qn"]
    else if c = 'o' then acc ++ ["oy", "ob"]
    else if c = 't' then acc ++ ["ty", "tb"]
    else if c = 'g' then acc ++ ["gy", "gk"]
    else if c = 'f' then acc ++ ["fy", "fk", "fa"]
    else acc) []

/-- One index of Go `modifyParams`; `n` is the value read by `range` before
any write.  Out-of-range accesses of `primaryValues[i]` or `elements[i]`
are the Go index panics, surfaced as errors in access order. -/
noncomputable def modifyStep (primary : List ℝ) (elements : List String) (i : ℕ) (n : ℝ) :
    Except String ℝ := do
  let v1 ← if n < 0 then
      match primary.get? i with
      | some p => Except.ok p
      | none => Except.error "panic: index out of range"
    else Except.ok n
  let e ← match elements.get? i with
    | some e => Except.ok e
    | none => Except.error "panic: index out of range"
  let v2 := if e = "qn" ∧ n > 1 then (1 : ℝ) else v1
  let v3 := if e = "qn" ∧ n < 0 then (0 : ℝ) else v2
  Except.ok (if e = "r" ∨ e = "c" ∨ e = "qy" then v3 * 1.1 else v3)

/-- Go `modifyParams`; the `diff` flag and `lastValues` are accepted and
ignored exactly as in the source, where their uses are commented out. -/
noncomputable def modifyParams (values : List ℝ) (diff : Bool) (primary : List ℝ)
    (lastValues : List ℝ) (elements : List String) : Except String (List ℝ) :=
  values.enum.mapM (fun p => modifyStep primary elements p.1 p.2)

/-- Go `scaleParams`: panics when the params and tag lists differ in length,
otherwise rescales per tag. -/
noncomputable def scaleParams (params : List ℝ) (elements : List String) (scale : ℝ) :
    Except String (List ℝ) :=
  if params.length ≠ elements.length then
    Except.error "solver: slice length mismatch"
  else
    Except.ok ((params.zip elements).map (fun pe =>
      if pe.2 = "r" ∨ pe.2 = "qn" ∨ pe.2 = "ob" ∨ pe.2 = "ty" ∨ pe.2 = "tb" then
        pe.1 * scale
      else if pe.2 = "c" ∨ pe.2 = "w" ∨ pe.2 = "qy" ∨ pe.2 = "oy" then
        pe.1 * 1 / scale
      else pe.1))

/-- The running maximum of the real parts starting from zero, as computed by
Go `prepareData` before it divides. -/
noncomputable def maxZr (impData : List (ℝ × ℝ)) : ℝ :=
  impData.foldl (fun m v => if v.1 > m then v.1 else m) 0

/-- The normalization Go `prepareData` applies in place. -/
noncomputable def normalizeData (impData : List (ℝ × ℝ)) (scale : ℝ) : List (ℝ × ℝ) :=
  impData.map (fun v => (v.1 / scale, v.2 / scale))

/-- Go `scaleData`: multiply every pair back by the scale. -/
noncomputable def scaleData (impData : List (ℝ × ℝ)) (scale : ℝ) : List (ℝ × ℝ) :=
  impData.map (fun v => (v.1 * scale, v.2 * scale))

/-- Go `findClosest`: index of the entry nearest to `x`, starting from an
infinite best distance and index 0. -/
noncomputable def findClosest (a : List ℝ) (x : ℝ) : ℕ :=
  (a.enum.foldl (fun best p =>
    if ((|p.2 - x| : ℝ) : EReal) < best.1 then (((|p.2 - x| : ℝ) : EReal), p.1) else best)
    ((⊤ : EReal), 0)).2

/-- Go `minMax`: `(0,0)` on an empty slice, otherwise the slice is sorted in
place and the first and last entries are returned.  The sorted list is
returned too, because the caller observes the mutation. -/
noncomputable def minMaxSorted (a : List ℝ) : List ℝ × ℝ × ℝ :=
  if a.length < 1 then (a, 0, 0)
  else
    let s := a.insertionSort (· ≤ ·)
    (s, s.getD 0 0, s.getD (s.length - 1) 0)

/-- Go `findInitValues`: walks the code accumulating per-element defaults;
each resistor consults `minMax`, which sorts the frequency slice in place,
so the possibly-sorted frequency list is threaded through and returned. -/
noncomputable def findInitValues (code : List Char) (freqs : List ℝ)
    (impData : List (ℝ × ℝ)) : List ℝ × List ℝ :=
  code.foldl (fun st c =>
    let fs := st.1
    let acc := st.2
    if c = 'r' then
      let m := minMaxSorted fs
      let freqAver := (10 : ℝ) ^ ((Real.logb 10 m.2.1 + Real.logb 10 m.2.2) / 2)
      (m.1, acc ++ [(impData.getD (findClosest m.1 freqAver) (0, 0)).1])
    else if c = 'c' then (fs, acc ++ [1e-5])
    else if c = 'l' then (fs, acc ++ [1e-5])
    else if c = 'w' then (fs, acc ++ [1e-5])
    else if c = 'q' then (fs, acc ++ [1e-5, 0.8])
    else if c = 'o' then (fs, acc ++ [1, 1])
    else if c = 't' then (fs, acc ++ [1, 1])
    else if c = 'g' then (fs, acc ++ [1, 1])
    else if c = 'f' then (fs, acc ++ [1, 1, 1])
    else (fs, acc)) (freqs, [])

structure LoopState where
  initValues : List ℝ
  lastMin : EReal
  lastValues : List ℝ
  bestRes : Result

/-- The retry loop of Go `eisSolve`.  The Go `modifyParams` mutates
`res.Params` in place, so when the best result was adopted in the same
iteration its params become the modified values; `lastValues` is assigned
from the same mutated slice. -/
noncomputable def eisLoop (oracle : NMOracle) (code : List Char) (freqs : List ℝ)
    (observed : List (ℝ × ℝ)) (w : Weighting) (primary : List ℝ)
    (elements : List String) (minFunc : ℝ) :
    ℕ → LoopState → Except String LoopState
  | 0, st => Except.ok st
  | n + 1, st =>
      let res := baseNMSolve oracle code freqs observed st.initValues w
      if res.min < (minFunc : EReal) then
        Except.ok { st with bestRes := if res.min < st.bestRes.min then res else st.bestRes }
      else
        match modifyParams res.params (decide (res.min > st.lastMin)) primary
            st.lastValues elements with
        | Except.error e => Except.error e
        | Except.ok iv =>
            eisLoop oracle code freqs observed w primary elements minFunc n
              { initValues := iv, lastMin := res.min, lastValues := iv,
                bestRes := if res.min < st.bestRes.min then { res with params := iv }
                  else st.bestRes }

/-- Go `eisSolve`: normalize the observed data by the maximum real part, find
initial values when none were supplied (sorting the frequency slice as a
side effect), run the retry loop, rescale the best params (a panic when the
lengths mismatch), multiply the observed data back, and return the best
result together with the final solver state. -/
noncomputable def eisSolve (oracle : NMOracle) (s : SolverState) (minFunc : ℝ)
    (maxIterations : ℕ) : Except String (Result × SolverState) :=
  let scaleCoef := maxZr s.observed
  let observedN := normalizeData s.observed scaleCoef
  let ivFreqs :=
    if s.initValues.length = 0 then findInitValues s.code s.freqs observedN
    else (s.freqs, s.initValues)
  let freqs0 := ivFreqs.1
  let iv0 := ivFreqs.2
  let elements := getElements s.code
  match eisLoop oracle s.code freqs0 observedN s.weighting iv0 elements minFunc
      maxIterations ⟨iv0, ⊤, List.replicate iv0.length 0, ⟨⊤, [], "", "", []⟩⟩ with
  | Except.error e => Except.error e
  | Except.ok stF =>
      match scaleParams stF.bestRes.params elements scaleCoef with
      | Except.error e => Except.error e
      | Except.ok ps =>
          Except.ok ({ stF.bestRes with params := ps },
            { s with observed := scaleData observedN scaleCoef,
                     initValues := stF.initValues, freqs := freqs0 })

/-! ## Worker pool (src/pkg/worker/pool.go)

The channels are bounded queues, modelled as lists with an explicit
capacity.  `QueueWebhook` is the non-blocking send with drop-on-full;
`SubmitJob` first tries a non-blocking send and otherwise blocks until the
consumer has drained enough items, here represented by the number of items
removed from the front while the submitter waited. -/

structure WebhookItem where
  requestID : String
  chiSquare : EReal
  realImp : List ℝ
  imagImp : List ℝ
  freqs : List ℝ
  circuitCode : List Char

structure WorkItem where
  id : ℤ
  requestID : String
  batchID : String
  iteration : ℤ
  freqs : List ℝ
  impData : List (ℝ × ℝ)
  code : List Char

/-- Go `Pool.QueueWebhook`: enqueue when there is room, otherwise drop. -/
def queueWebhook (cap : ℕ) (q : List WebhookItem) (x : WebhookItem) : List WebhookItem :=
  if q.length < cap then q ++ [x] else q

/-- Go `Pool.SubmitJob`: enqueue when there is room; when the queue is full
the send blocks until the workers have consumed `drained` items, after
which the job enters the queue.  The boolean records whether the submitter
blocked. -/
def submitJob (cap : ℕ) (q : List WorkItem) (x : WorkItem) (drained : ℕ) :
    List WorkItem × Bool :=
  if q.length < cap then (q ++ [x], false) else ((q.drop drained) ++ [x], true)

/-- What the processor function handed to the pool can produce: a fit
`Result`, or any other value (the worker type-asserts against `Result`). -/
inductive ProcOutput where
  | result : Result → ProcOutput
  | other : ProcOutput

/-- Go `EISProcessor.ProcessorFunc` (src/unnamed/part_001): wrap `Process`,
converting an error into `Result{Status: ERROR, Min: 0.0, Params: []}`. -/
noncomputable def processorFunc (outcome : Except String Result) : ProcOutput :=
  match outcome with
  | Except.error _ => ProcOutput.result ⟨((0 : ℝ) : EReal), [], "ERROR", "", []⟩
  | Except.ok r => ProcOutput.result r

structure WorkResult where
  id : ℤ
  requestID : String
  batchID : String
  iteration : ℤ
  result : Result
  success : Bool
  freqs : List ℝ
  realImp : List ℝ
  imagImp : List ℝ
  circuitCode : List Char

/-- Go `Pool.processJob`: run the processor, split the impedance pairs into
real and imaginary copies, type-assert the processor value to a `Result`
falling back to `Result{Status: ERROR, Min: 0.0, Params: []}`, and mark
success exactly when the status is OK. -/
noncomputable def processJob (job : WorkItem) (output : ProcOutput) : WorkResult :=
  let eisResult : Result :=
    match output with
    | ProcOutput.result r => r
    | ProcOutput.other => ⟨((0 : ℝ) : EReal), [], "ERROR", "", []⟩
  { id := job.id, requestID := job.requestID, batchID := job.batchID,
    iteration := job.iteration, result := eisResult,
    success := eisResult.status == "OK", freqs := job.freqs,
    realImp := job.impData.map (·.1), imagImp := job.impData.map (·.2),
    circuitCode := job.code }

/-! ## HTTP surface and batch orchestrator (src/pkg/handlers/eis.go)

`handleEIS` captures the single-spectrum handler decision together with the
webhook item the asynchronous continuation always enqueues; `processValidate`
is the validation prefix of `EISProcessor.Process` (src/unnamed/part_001),
the only place the length invariant is checked.  `processResult` is the
unchecked indexed write of `BatchHandler.processResult`; the Go
index-out-of-range panic is the `none` outcome. -/

structure ImpedanceData where
  frequencies : List ℝ
  impedance : List (ℝ × ℝ)

/-- Go `EISHandler.ServeHTTP` followed by `processAsync` for a POST request
with well-formed JSON: empty frequencies give a 400 response and nothing
else happens; any other body is answered 202 and the asynchronous path
builds and enqueues a webhook item with `ChiSquare: 0.0` regardless of the
processing outcome. -/
noncomputable def handleEIS (requestID : String) (cfgCode : List Char)
    (d : ImpedanceData) : ℕ × Option WebhookItem :=
  if d.frequencies.length = 0 then (400, none)
  else
    (202, some
      { requestID := requestID, chiSquare := ((0 : ℝ) : EReal),
        realImp := d.impedance.map (·.1), imagImp := d.impedance.map (·.2),
        freqs := d.frequencies, circuitCode := cfgCode })

/-- The validation prefix of Go `EISProcessor.Process`: empty frequencies,
empty impedance data and a length mismatch are rejected in that order. -/
def processValidate (freqs : List ℝ) (impData : List (ℝ × ℝ)) : Except String Unit :=
  if freqs.length = 0 then Except.error "no frequency data provided"
  else if impData.length = 0 then Except.error "no impedance data provided"
  else if freqs.length ≠ impData.length then
    Except.error "frequency and impedance data length mismatch"
  else Except.ok ()

structure SpectrumTiming where
  iteration : ℤ
  chiSquare : EReal
  success : Bool
  circuitCode : List Char

/-- Go `BatchHandler.processResult`: write the timing row at index
`result.Iteration` with no bounds check (`none` is the index panic), then
build the webhook item for this spectrum. -/
noncomputable def processResult (timings : List SpectrumTiming) (r : WorkResult) :
    Option (List SpectrumTiming × WebhookItem) :=
  if 0 ≤ r.iteration ∧ r.iteration < (timings.length : ℤ) then
    some (timings.set r.iteration.toNat
      ⟨r.iteration, r.result.min, r.success, r.circuitCode⟩,
      { requestID := r.requestID ++ "_iter_" ++ toString r.iteration,
        chiSquare := r.result.min, realImp := r.realImp, imagImp := r.imagImp,
        freqs := r.freqs, circuitCode := r.circuitCode })
  else none

/-- The collection loop of Go `BatchHandler.processBatchAsync`, applied to
the results in arrival order: the loop runs until one result per spectrum
has been processed, and dies with the panic of the first out-of-range
write. -/
noncomputable def collectResults : List WorkResult → List SpectrumTiming →
    Option (List SpectrumTiming)
  | [], timings => some timings
  | r :: rest, timings =>
      match processResult timings r with
      | none => none
      | some tw => collectResults rest tw.1

/-! ## Per-element impedance calculator (pkg/webhook calculator, src/unnamed/part_004)

Transcription of `Calculator.CalculateElementImpedances` and its helpers.
The float64 NaN/Inf sanitization of `sanitizeImpedance` has no effect in
real-number semantics and is the identity here. -/

structure ElementImpedance where
  name : String
  impedances : List (ℝ × ℝ)

/-- Go `complex(math.Sqrt(w/2), math.Sqrt(w/2))`. -/
noncomputable def sqrtJW (w : ℝ) : ℂ :=
  ⟨Real.sqrt (w / 2), Real.sqrt (w / 2)⟩

/-- Go `Calculator.calculateByFirstChar`. -/
noncomputable def calculateByFirstChar (elementName : String) (parameter : ℝ) (w : ℝ) : ℂ :=
  match elementName.data with
  | [] => 0
  | c :: _ =>
      if c = 'r' then (parameter : ℂ)
      else if c = 'c' then
        if parameter ≠ 0 then 1 / (Complex.I * (w : ℂ) * (parameter : ℂ)) else 0
      else if c = 'l' then Complex.I * (w : ℂ) * (parameter : ℂ)
      else if c = 'w' then
        if parameter ≠ 0 then 1 / ((parameter : ℂ) * sqrtJW w) else 0
      else 0

/-- Go `Calculator.calculateElementImpedance`: note that the `qy` case
returns `complex(0,0)` rather than skipping the frequency. -/
noncomputable def calculateElementImpedance (elementName : String) (parameter : ℝ)
    (w : ℝ) (parameters : List ℝ) (elementNames : List String) (index : ℕ) : ℂ :=
  if elementName = "r" then (parameter : ℂ)
  else if elementName = "c" then
    if parameter ≠ 0 then 1 / (Complex.I * (w : ℂ) * (parameter : ℂ)) else 0
  else if elementName = "l" then Complex.I * (w : ℂ) * (parameter : ℂ)
  else if elementName = "w" then
    if parameter ≠ 0 then 1 / ((parameter : ℂ) * sqrtJW w) else 0
  else if elementName = "qy" then 0
  else if elementName = "qn" then
    if 0 < index ∧ elementNames.getD (index - 1) "" = "qy" then
      let qY := parameters.getD (index - 1) 0
      if qY ≠ 0 then
        1 / ((qY : ℂ) * Complex.mk 0 w ^ ((parameter : ℝ) : ℂ))
      else 0
    else 0
  else calculateByFirstChar elementName parameter w

/-- Go `Calculator.calculateImpedanceForElement`: one sanitized pair per
frequency. -/
noncomputable def calculateImpedanceForElement (elementName : String) (parameter : ℝ)
    (frequencies : List ℝ) (parameters : List ℝ) (elementNames : List String)
    (index : ℕ) : List (ℝ × ℝ) :=
  frequencies.map (fun freq =>
    let z := calculateElementImpedance elementName parameter (2 * Real.pi * freq)
      parameters elementNames index
    (z.re, z.im))

/-- Go `Calculator.getDisplayName`. -/
def getDisplayName (elementName : String) : String :=
  if elementName = "qn" then "Q" else elementName

/-- Go `Calculator.CalculateElementImpedances`: walk the tags (stopping at
the parameter count), compute the per-frequency impedances, and keep the
entry whenever that list is non-empty. -/
noncomputable def CalculateElementImpedances (frequencies : List ℝ) (parameters : List ℝ)
    (elementNames : List String) : List ElementImpedance :=
  ((elementNames.take parameters.length).enum).foldl (fun result p =>
    let impedances := calculateImpedanceForElement p.2 (parameters.getD p.1 0)
      frequencies parameters elementNames p.1
    if impedances.length > 0 then
      result ++ [⟨getDisplayName p.2, impedances⟩]
    else result) []

/-! ## Concrete instances used by individual claims -/

/-- A Nelder-Mead behaviour for claim C4: the minimizer returns its starting
point together with the chi-square of the resistor model at that point on
the normalized data used in the counterexample run. -/
def nmOracleC4 : NMOracle :=
  fun _ _ _ init _ => OptOutcome.ok init ((init.getD 0 0 - 1) ^ 2)

def c4State0 : SolverState :=
  ⟨['r'], [1], [(1, 0)], [2], Weighting.UNITY⟩

def c4WitnessState : SolverState :=
  ⟨['r'], [1], [(1, 0)], [1], Weighting.UNITY⟩

/-- A minimizer that fails on every invocation, for claim C3. -/
def errOracle : NMOracle := fun _ _ _ _ _ => OptOutcome.err

def c3State : SolverState :=
  ⟨['r'], [1], [(1, 0)], [1], Weighting.UNITY⟩

def c5Data : ImpedanceData :=
  ⟨[1, 2, 3, 4, 5], [(1, 0), (2, 0), (3, 0), (4, 0)]⟩

def c7Item : WebhookItem := ⟨"w1", ((0 : ℝ) : EReal), [], [], [], []⟩

def c7Item2 : WebhookItem := ⟨"w2", ((0 : ℝ) : EReal), [], [], [], []⟩

def c7Job : WorkItem := ⟨0, "r1", "b1", 0, [], [], []⟩

/-- The fit result of the witness run for claim C4. -/
def c4WitnessResult : Result := ⟨((0 : ℝ) : EReal), [1], "OK", "ChiSq", ['r']⟩

def c10Timing : SpectrumTiming := ⟨0, ((0 : ℝ) : EReal), false, []⟩

def c10ResultOk : Result := ⟨((0 : ℝ) : EReal), [], "OK", "ChiSq", []⟩

/-- A work result whose iteration equals the batch size, for claim C10. -/
def c10Bad : WorkResult := ⟨2, "r", "b", 2, c10ResultOk, true, [], [], [], []⟩

/-- A work result with a negative iteration, for claim C10. -/
def c10Neg : WorkResult := ⟨0, "r", "b", -1, c10ResultOk, true, [], [], [], []⟩

/-- An in-range work result, for the witness of claim C10. -/
def c10Good : WorkResult := ⟨0, "r", "b", 0, c10ResultOk, true, [], [], [], []⟩

/-! ## Theorems -/

/-- Claim C7: a webhook item offered to a full webhook queue is dropped and
the operation returns without blocking, an item offered to a queue with room
is appended, and a submitted job always ends up in the jobs queue - the
submitter blocks (flag true) exactly when the queue was full, but the job is
never dropped. -/
theorem webhook_drops_jobs_never_lost :
    (∀ (cap : ℕ) (q : List WebhookItem) (x : WebhookItem),
      cap ≤ q.length → queueWebhook cap q x = q) ∧
    (∀ (cap : ℕ) (q : List WebhookItem) (x : WebhookItem),
      q.length < cap → queueWebhook cap q x = q ++ [x]) ∧
    (∀ (cap : ℕ) (q : List WorkItem) (j : WorkItem) (drained : ℕ),
      j ∈ (submitJob cap q j drained).1) ∧
    (∀ (cap : ℕ) (q : List WorkItem) (j : WorkItem) (drained : ℕ),
      ((submitJob cap q j drained).2 = true ↔ cap ≤ q.length)) := by
  refine ⟨?_, ?_, ?_, ?_⟩
  · intro cap q x h
    simp [queueWebhook, Nat.not_lt.mpr h]
  · intro cap q x h
    simp [queueWebhook, h]
  · intro cap q j drained
    unfold submitJob
    split <;> simp
  · intro cap q j drained
    rcases Nat.lt_or_ge q.length cap with h | h
    · simp [submitJob, h, Nat.not_le.mpr h]
    · simp [submitJob, Nat.not_lt.mpr h, h]

/-- Witness for C7 at concrete queues: a full one-slot webhook queue drops,
a two-slot queue appends, and a job submitted to a full queue is still in
the queue afterwards. -/
theorem webhook_drops_jobs_never_lost_witness :
    queueWebhook 1 [c7Item] c7Item2 = [c7Item] ∧
    queueWebhook 2 [c7Item] c7Item2 = [c7Item, c7Item2] ∧
    c7Job ∈ (submitJob 2 [c7Job, c7Job] c7Job 1).1 :=
  ⟨webhook_drops_jobs_never_lost.1 1 [c7Item] c7Item2 (by simp),
   webhook_drops_jobs_never_lost.2.1 2 [c7Item] c7Item2 (by simp),
   webhook_drops_jobs_never_lost.2.2.1 2 [c7Job, c7Job] c7Job 1⟩

/-- Claim C9: when the processor hands back an error (wrapped by
`ProcessorFunc`) or a value that is not a `Result`, the pool still builds a
`WorkResult` with `Success = false`, `Result.Min = 0.0` and empty params. -/
theorem failed_fit_reports_zero_chisq :
    (∀ job : WorkItem, (processJob job ProcOutput.other).success = false ∧
      (processJob job ProcOutput.other).result.min = ((0 : ℝ) : EReal) ∧
      (processJob job ProcOutput.other).result.params = []) ∧
    (∀ (job : WorkItem) (e : String),
      (processJob job (processorFunc (Except.error e))).success = false ∧
      (processJob job (processorFunc (Except.error e))).result.min = ((0 : ℝ) : EReal) ∧
      (processJob job (processorFunc (Except.error e))).result.params = []) := by
  constructor
  · intro job
    refine ⟨?_, rfl, rfl⟩
    simp [processJob]
  · intro job e
    refine ⟨?_, rfl, rfl⟩
    simp [processJob, processorFunc]

/-- Claim C10: the batch orchestrator writes each result at index
`result.Iteration` unchecked; when every iteration of a batch of N results
lies in `[0, N)` the collection loop completes and the timing table keeps
its N rows, and a result whose iteration is N (or negative) makes the
collecting goroutine panic, so no timing table is produced. -/
theorem batch_indexed_write :
    (∀ (results : List WorkResult) (timings : List SpectrumTiming),
      results.length = timings.length →
      (∀ r ∈ results, 0 ≤ r.iteration ∧ r.iteration < (timings.length : ℤ)) →
      (collectResults results timings).map List.length = some timings.length) ∧
    collectResults [c10Bad] [c10Timing, c10Timing] = none ∧
    collectResults [c10Neg] [c10Timing, c10Timing] = none := by
  have general : ∀ (results : List WorkResult) (timings : List SpectrumTiming),
      (∀ r ∈ results, 0 ≤ r.iteration ∧ r.iteration < (timings.length : ℤ)) →
      (collectResults results timings).map List.length = some timings.length := by
    intro results
    induction results with
    | nil => intro timings _; simp [collectResults]
    | cons r rest ih =>
        intro timings hin
        have hr := hin r (List.mem_cons_self r rest)
        rcases h2 : processResult timings r with _ | tw
        · exact absurd h2 (by simp [processResult, hr])
        · have hlen2 : tw.1.length = timings.length := by
            simp only [processResult, if_pos hr] at h2
            cases h2
            simp
          have := ih tw.1 (fun r2 hr2 => by
            rw [hlen2]
            exact hin r2 (List.mem_cons_of_mem r hr2))
          simp [collectResults, h2, this, hlen2]
  refine ⟨?_, ?_, ?_⟩
  · intro results timings _ hin
    exact general results timings hin
  · simp [collectResults, processResult, c10Bad]
  · simp [collectResults, processResult, c10Neg]

/-- Witness for C10: a singleton batch whose only iteration is 0 collects
successfully and keeps one timing row. -/
theorem batch_indexed_write_witness :
    (collectResults [c10Good] [c10Timing]).map List.length = some 1 :=
  batch_indexed_write.1 [c10Good] [c10Timing] rfl
    (by intro r hr; simp at hr; subst hr; refine ⟨by simp [c10Good], by simp [c10Good]⟩)

/-- Counterexample to claim C5: the single-spectrum request with five
frequencies and four impedance points is answered 202, not 400, and a
webhook item is still produced for it. -/
theorem mismatch_not_rejected_cex :
    (handleEIS "req" ['r'] c5Data).1 = 202 ∧
    ((handleEIS "req" ['r'] c5Data).2).isSome = true := by
  constructor <;> simp [handleEIS, c5Data]

/-- Claim C5 as amended: a single-spectrum request whose nonempty frequency
and impedance lists have different lengths is accepted with 202, a webhook
item (with chi-square 0) is still enqueued for it, and the length invariant
is only checked at job entry, where `Process` rejects the mismatch with an
error. -/
theorem mismatch_accepted_checked_at_job_entry :
    ∀ (rid : String) (code : List Char) (d : ImpedanceData),
      d.frequencies.length ≠ 0 → d.impedance.length ≠ 0 →
      d.frequencies.length ≠ d.impedance.length →
      (handleEIS rid code d).1 = 202 ∧ ((handleEIS rid code d).2).isSome = true ∧
      processValidate d.frequencies d.impedance =
        Except.error "frequency and impedance data length mismatch" := by
  intro rid code d h1 h2 h3
  refine ⟨?_, ?_, ?_⟩
  · simp [handleEIS, h1]
  · simp [handleEIS, h1]
  · simp [processValidate, h1, h2, h3]

/-- Witness for the amended C5 at the concrete mismatched request. -/
theorem mismatch_accepted_checked_at_job_entry_witness :
    (handleEIS "req2" ['r'] c5Data).1 = 202 ∧
    ((handleEIS "req2" ['r'] c5Data).2).isSome = true ∧
    processValidate c5Data.frequencies c5Data.impedance =
      Except.error "frequency and impedance data length mismatch" :=
  mismatch_accepted_checked_at_job_entry "req2" ['r'] c5Data
    (by simp [c5Data]) (by simp [c5Data]) (by simp [c5Data])

/-- Claim C2: `ChiSq` on equal-length inputs is the indexed sum of weighted
squared residuals divided by the point count, and a length mismatch panics
instead of returning a value. -/
theorem chiSq_matches_spec :
    ∀ (observed calculated : List (ℝ × ℝ)) (w : Weighting),
      (observed.length = calculated.length →
        chiSq observed calculated w = Except.ok (specChiSq observed calculated w)) ∧
      (observed.length ≠ calculated.length →
        chiSq observed calculated w = Except.error "solver chiSq: slice length mismatch") := by
  intro observed calculated w
  constructor
  · intro h
    have hfold : ∀ (O C : List (ℝ × ℝ)) (a : ℝ), O.length = C.length →
        (O.zip C).foldl (fun acc oc => acc + chiSqPoint w oc.1 oc.2) a =
        a + ∑ i ∈ Finset.range O.length,
          chiSqPoint w (O.getD i (0, 0)) (C.getD i (0, 0)) := by
      intro O
      induction O with
      | nil => intro C a _; simp
      | cons o rest ih =>
          intro C a hlen
          cases C with
          | nil => simp at hlen
          | cons c crest =>
              have hlen2 : rest.length = crest.length := by simpa using hlen
              simp only [List.zip_cons_cons, List.foldl_cons]
              rw [ih crest _ hlen2]
              simp only [List.length_cons]
              rw [Finset.sum_range_succ']
              simp only [List.getD_cons_succ, List.getD_cons_zero]
              ring
    have hsum := hfold observed calculated 0 h
    simp only [zero_add] at hsum
    simp [chiSq, h, specChiSq, hsum]
  · intro h
    simp [chiSq, h]

/-- Witness for C2 at a concrete one-point pair of sequences. -/
theorem chiSq_matches_spec_witness :
    chiSq [(1, 2)] [(3, 4)] Weighting.UNITY =
      Except.ok (specChiSq [(1, 2)] [(3, 4)] Weighting.UNITY) :=
  (chiSq_matches_spec [(1, 2)] [(3, 4)] Weighting.UNITY).1 rfl

/-- Claim C8 is violated by the pkg/webhook calculator: at the failing input
with tags `[qy, qn]`, CPE parameters `[1e-6, 0.8]` and one frequency, the
output contains an entry for the `qy` tag (with a zero impedance pair)
before the `Q` entry, because the `qy` case returns `complex(0,0)` for
every frequency instead of skipping, so the emptiness filter never fires.
The qn entry is labeled `Q` as the claim states. -/
theorem calculator_emits_qy_entry :
    (CalculateElementImpedances [1] [1e-6, 0.8] ["qy", "qn"]).map
      ElementImpedance.name = ["qy", "Q"] := by
  simp [CalculateElementImpedances, calculateImpedanceForElement, getDisplayName,
    List.enum, List.enumFrom, List.take]

/-- Counterexample to claim C3: gradient descent panics instead of returning
an ERROR result when the optimizer fails; the EIS smart mode driver panics
in `scaleParams` when every Nelder-Mead attempt fails on a one-element
circuit; and a panic recovered inside base LM yields the zero-value result
(empty status, min 0) rather than `status=ERROR, min=+Inf`. -/
theorem solver_error_contract_cex :
    baseGDSolve OptOutcome.err = Except.error "panic: gradient descent optimizer error" ∧
    eisSolve errOracle c3State 1 1 = Except.error "solver: slice length mismatch" ∧
    baseLMSolve ['r'] [1] [(1, 0)] Weighting.UNITY LMOutcome.panicked =
      Except.ok ⟨((0 : ℝ) : EReal), [], "", "", []⟩ := by
  refine ⟨rfl, ?_, rfl⟩
  simp [eisSolve, eisLoop, baseNMSolve, errOracle, c3State, modifyParams,
    scaleParams, getElements, maxZr, normalizeData, List.enum, List.mapM.loop,
    pure, Except.pure, not_top_lt]

/-- Claim C3 as amended: the Nelder-Mead, L-BFGS, Newton and LM inner
solvers convert an optimizer failure into a `status=ERROR` result with
`min=+Inf` and empty params (L-BFGS and Newton leave the min-unit empty);
gradient descent instead propagates the optimizer error as a panic; a panic
recovered inside base LM produces the zero-value result; and when every
Nelder-Mead attempt fails the EIS smart mode driver panics in `scaleParams`
on any circuit with at least one element. -/
theorem solver_error_contract :
    (∀ (oracle : NMOracle) (code : List Char) (freqs : List ℝ)
      (obs : List (ℝ × ℝ)) (iv : List ℝ) (w : Weighting),
      iv.length = 0 ∨ oracle code freqs obs iv w = OptOutcome.err →
      baseNMSolve oracle code freqs obs iv w = ⟨⊤, [], "ERROR", "ChiSq", []⟩) ∧
    baseGDSolve OptOutcome.err = Except.error "panic: gradient descent optimizer error" ∧
    baseLBFGSSolve OptOutcome.err = ⟨⊤, [], "ERROR", "", []⟩ ∧
    baseNewtonSolve OptOutcome.err = ⟨⊤, [], "ERROR", "", []⟩ ∧
    (∀ (code : List Char) (freqs : List ℝ) (obs : List (ℝ × ℝ)) (w : Weighting),
      baseLMSolve code freqs obs w LMOutcome.err = Except.ok ⟨⊤, [], "ERROR", "ChiSq", []⟩) ∧
    (∀ (code : List Char) (freqs : List ℝ) (obs : List (ℝ × ℝ)) (w : Weighting),
      baseLMSolve code freqs obs w LMOutcome.panicked =
        Except.ok ⟨((0 : ℝ) : EReal), [], "", "", []⟩) ∧
    (∀ (oracle : NMOracle) (s : SolverState) (minF : ℝ) (maxIter : ℕ),
      (∀ c f o i w, oracle c f o i w = OptOutcome.err) →
      getElements s.code ≠ [] →
      eisSolve oracle s minF maxIter = Except.error "solver: slice length mismatch") := by
  refine ⟨?_, rfl, rfl, rfl, fun _ _ _ _ => rfl, fun _ _ _ _ => rfl, ?_⟩
  · intro oracle code freqs obs iv w h
    rcases h with h | h
    · simp [baseNMSolve, h]
    · by_cases hiv : iv.length = 0
      · simp [baseNMSolve, hiv]
      · simp [baseNMSolve, hiv, h]
  · intro oracle s minF maxIter horacle helems
    have hloop : ∀ (code : List Char) (freqs : List ℝ) (obs : List (ℝ × ℝ))
        (w : Weighting) (primary : List ℝ) (elements : List String) (minF : ℝ)
        (n : ℕ) (st : LoopState),
        ∃ st2, eisLoop oracle code freqs obs w primary elements minF n st =
          Except.ok st2 ∧ st2.bestRes = st.bestRes := by
      intro code freqs obs w primary elements minF n
      induction n with
      | zero => intro st; exact ⟨st, rfl, rfl⟩
      | succ n ih =>
          intro st
          have hbase : baseNMSolve oracle code freqs obs st.initValues w =
              ⟨⊤, [], "ERROR", "ChiSq", []⟩ := by
            by_cases hiv : st.initValues.length = 0
            · simp [baseNMSolve, hiv]
            · simp [baseNMSolve, hiv, horacle]
          obtain ⟨st2, h1, h2⟩ := ih ⟨[], ⊤, [], st.bestRes⟩
          refine ⟨st2, ?_, by rw [h2]⟩
          simp only [eisLoop, hbase]
          rw [if_neg (by simp)]
          simpa [modifyParams, List.enum, not_top_lt] using h1
    simp only [eisSolve]
    obtain ⟨st2, h1, h2⟩ := hloop s.code _ _ s.weighting _ (getElements s.code) minF
      maxIter ⟨_, ⊤, _, ⟨⊤, [], "", "", []⟩⟩
    rw [h1]
    have hparams : st2.bestRes.params = [] := by rw [h2]
    have hlen : (0 : ℕ) ≠ (getElements s.code).length := fun hc =>
      helems (List.eq_nil_of_length_eq_zero hc.symm)
    simp [hparams, scaleParams, hlen]

/-- Witness for the amended C3: the contract evaluated at concrete inputs,
for the Nelder-Mead error branch and for the EIS driver panic. -/
theorem solver_error_contract_witness :
    baseNMSolve errOracle ['r'] [1] [(1, 0)] [1] Weighting.UNITY =
      ⟨⊤, [], "ERROR", "ChiSq", []⟩ ∧
    eisSolve errOracle c3State 1 2 = Except.error "solver: slice length mismatch" :=
  ⟨solver_error_contract.1 errOracle ['r'] [1] [(1, 0)] [1] Weighting.UNITY (Or.inr rfl),
   solver_error_contract.2.2.2.2.2.2 errOracle c3State 1 2 (fun _ _ _ _ _ => rfl)
     (by simp [getElements, c3State])⟩

/-- Inversion of a successful `eisSolve` run: the returned state carries the
rescaled observed data and preserves code and weighting. -/
theorem eisSolve_ok_inv (oracle : NMOracle) (s : SolverState) (minF : ℝ)
    (maxIter : ℕ) (r : Result) (s2 : SolverState)
    (h : eisSolve oracle s minF maxIter = Except.ok (r, s2)) :
    s2.observed = scaleData (normalizeData s.observed (maxZr s.observed)) (maxZr s.observed) ∧
    s2.code = s.code ∧ s2.weighting = s.weighting := by
  simp only [eisSolve] at h
  split at h
  · exact absurd h (by simp)
  · split at h
    · exact absurd h (by simp)
    · rw [Except.ok.injEq, Prod.mk.injEq] at h
      rw [← h.2]
      exact ⟨rfl, rfl, rfl⟩

/-- Undoing the normalization: multiplying the divided data back by a
nonzero scale restores every pair. -/
theorem scaleData_normalizeData (obs : List (ℝ × ℝ)) (m : ℝ) (hm : m ≠ 0) :
    scaleData (normalizeData obs m) m = obs := by
  unfold scaleData normalizeData
  rw [List.map_map]
  have hfun : ((fun v : ℝ × ℝ => (v.1 * m, v.2 * m)) ∘
      (fun v : ℝ × ℝ => (v.1 / m, v.2 / m))) = id := by
    funext v
    simp [div_mul_cancel₀, hm]
  rw [hfun, List.map_id]

/-- Claim C4 as amended: a successful EIS smart mode run restores the
observed data exactly (real arithmetic) whenever the maximum real part is
positive, and a second run on the returned solver state reproduces the
first result provided the run left the initial values and the frequency
slice unchanged (the retry loop rewrites `InitValues`, and `findInitValues`
sorts `Freqs`, so without that proviso the second run can differ). -/
theorem eis_restores_observed_and_repeat :
    ∀ (oracle : NMOracle) (s : SolverState) (minF : ℝ) (maxIter : ℕ)
      (r : Result) (s2 : SolverState),
      0 < maxZr s.observed →
      eisSolve oracle s minF maxIter = Except.ok (r, s2) →
      s2.observed = s.observed ∧
      (s2.initValues = s.initValues → s2.freqs = s.freqs →
        eisSolve oracle s2 minF maxIter = Except.ok (r, s2)) := by
  intro oracle s minF maxIter r s2 hscale hrun
  obtain ⟨hobs, hcode, hw⟩ := eisSolve_ok_inv oracle s minF maxIter r s2 hrun
  have hobs2 : s2.observed = s.observed := by
    rw [hobs, scaleData_normalizeData _ _ (ne_of_gt hscale)]
  refine ⟨hobs2, fun hi hf => ?_⟩
  have hs : s2 = s := by
    cases s2
    cases s
    simp_all
  rw [hs]
  rw [hs] at hrun
  exact hrun

/-- Counterexample to claim C4: with a Nelder-Mead behaviour that returns
its starting point and the resistor chi-square at that point, one run
from initial value 2 reports minimum 1, but the run multiplies the initial
values by 1.1, and the second run on the very state the first returned
reports minimum 1.44, so running twice does not yield the same result. -/
theorem eis_not_idempotent_cex :
    (eisSolve nmOracleC4 c4State0 1 1).map (fun p => p.1.min) =
      Except.ok ((1 : ℝ) : EReal) ∧
    ((eisSolve nmOracleC4 c4State0 1 1).bind
      (fun p => eisSolve nmOracleC4 p.2 1 1)).map (fun p => p.1.min) =
      Except.ok ((1.44 : ℝ) : EReal) ∧
    ((1 : ℝ) : EReal) ≠ ((1.44 : ℝ) : EReal) := by
  have t1 : (1 : EReal) < ⊤ := by
    rw [← EReal.coe_one]
    exact EReal.coe_lt_top 1
  have t2 : ¬ ((1 : EReal) < 1) := lt_irrefl 1
  have t3 : ¬ (((36 / 25 : ℝ) : EReal) < 1) := by
    rw [← EReal.coe_one, EReal.coe_lt_coe_iff]
    norm_num
  have s1 : ("r" : String) ≠ "qn" := by decide
  have h1 : eisSolve nmOracleC4 c4State0 1 1 =
      Except.ok (⟨((1 : ℝ) : EReal), [2.2], "OK", "ChiSq", ['r']⟩,
        ⟨['r'], [1], [(1, 0)], [2.2], Weighting.UNITY⟩) := by
    norm_num [eisSolve, eisLoop, baseNMSolve, nmOracleC4, c4State0, maxZr,
      normalizeData, scaleData, getElements, modifyParams, modifyStep,
      scaleParams, List.enum, List.enumFrom, List.mapM.loop, List.get?,
      pure, Except.pure, Bind.bind, Except.bind, EReal.coe_lt_coe_iff,
      EReal.coe_lt_top, not_top_lt, t1, t2, t3, s1]
  have h2 : eisSolve nmOracleC4 ⟨['r'], [1], [(1, 0)], [2.2], Weighting.UNITY⟩ 1 1 =
      Except.ok (⟨((1.44 : ℝ) : EReal), [2.42], "OK", "ChiSq", ['r']⟩,
        ⟨['r'], [1], [(1, 0)], [2.42], Weighting.UNITY⟩) := by
    norm_num [eisSolve, eisLoop, baseNMSolve, nmOracleC4, maxZr,
      normalizeData, scaleData, getElements, modifyParams, modifyStep,
      scaleParams, List.enum, List.enumFrom, List.mapM.loop, List.get?,
      pure, Except.pure, Bind.bind, Except.bind, EReal.coe_lt_coe_iff,
      EReal.coe_lt_top, not_top_lt, t1, t2, t3, s1]
  refine ⟨by simp [h1, Except.map], by simp [h1, h2, Except.bind, Except.map], ?_⟩
  rw [ne_eq, EReal.coe_eq_coe_iff]
  norm_num

/-- Witness for the amended C4: a run that converges in its first iteration
leaves the solver state exactly as it found it, and the theorem then gives
the identical second run. -/
theorem eis_restores_observed_and_repeat_witness :
    0 < maxZr c4WitnessState.observed ∧
    eisSolve nmOracleC4 c4WitnessState 1 1 =
      Except.ok (c4WitnessResult, c4WitnessState) ∧
    eisSolve nmOracleC4 c4WitnessState 1 1 =
      Except.ok (c4WitnessResult, c4WitnessState) := by
  have u1 : (0 : EReal) < 1 := by
    rw [← EReal.coe_zero, ← EReal.coe_one, EReal.coe_lt_coe_iff]
    norm_num
  have u2 : (0 : EReal) < ⊤ := by
    rw [← EReal.coe_zero]
    exact EReal.coe_lt_top 0
  have hscale : 0 < maxZr c4WitnessState.observed := by
    norm_num [maxZr, c4WitnessState]
  have hrun : eisSolve nmOracleC4 c4WitnessState 1 1 =
      Except.ok (c4WitnessResult, c4WitnessState) := by
    norm_num [eisSolve, eisLoop, baseNMSolve, nmOracleC4, c4WitnessState,
      c4WitnessResult, maxZr, normalizeData, scaleData, getElements,
      scaleParams, EReal.coe_lt_coe_iff, EReal.coe_lt_top, u1, u2]
  exact ⟨hscale, hrun,
    (eis_restores_observed_and_repeat nmOracleC4 c4WitnessState 1 1 c4WitnessResult
      c4WitnessState hscale hrun).2 rfl rfl⟩

/-- The Go `sum` computes exactly the combination the spec describes. -/
theorem sum_eq_specCombine (z1 z2 : ℂ) (m : Mode) :
    sum z1 z2 m = specCombine m z1 z2 := by
  cases m <;> rfl

/-- On the element alphabet the transcription and the spec interpreter take
identical steps. -/
theorem specStep_eq_stepChar (values : List ℝ) (w : ℝ) (st : EvalState) (c : Char)
    (hc : c ∈ elementAlphabet) :
    specStep values w st c = stepChar values w st c := by
  fin_cases hc <;>
    cases st.stack <;>
      simp [specStep, stepChar, specElement, sum_eq_specCombine]

theorem specRun_eq_runCode (values : List ℝ) (w : ℝ) :
    ∀ (code : List Char) (st : EvalState), (∀ c ∈ code, c ∈ elementAlphabet) →
      specRun values w code st = runCode values w code st := by
  intro code
  induction code with
  | nil => intro st _; rfl
  | cons c rest ih =>
      intro st h
      have hc := h c (List.mem_cons_self c rest)
      simp only [specRun, runCode, specStep_eq_stepChar values w st c hc]
      cases stepChar values w st c with
      | none => rfl
      | some st2 => exact ih st2 (fun d hd => h d (List.mem_cons_of_mem c hd))

/-- Claim C1: on every circuit code over the element alphabet the Go
evaluator computes exactly what spec section 4.1 describes - toggling at
parentheses, combining under the resulting mode at a closing parenthesis,
series addition, parallel combination through zero-safe admittances, and
one real/imaginary pair of the final accumulator per frequency. -/
theorem circuit_interpreter_matches_spec :
    ∀ (code : List Char) (freqs values : List ℝ),
      (∀ c ∈ code, c ∈ elementAlphabet) →
      specCircuitImpedance code freqs values = CircuitImpedance code freqs values := by
  intro code freqs values h
  unfold specCircuitImpedance CircuitImpedance evalFreq
  have hfun : (fun f : ℝ =>
      ((specRun values (2 * Real.pi * f) code ⟨Mode.SERIES, [], 0, 0⟩).map (·.tmp)).map
        (fun z => (z.re, z.im))) =
      (fun f : ℝ =>
      ((runCode values (2 * Real.pi * f) code ⟨Mode.SERIES, [], 0, 0⟩).map (·.tmp)).map
        (fun z => (z.re, z.im))) := by
    funext f
    rw [specRun_eq_runCode values (2 * Real.pi * f) code ⟨Mode.SERIES, [], 0, 0⟩ h]
  rw [hfun]

/-- Witness for C1 at the concrete circuit code r(cr). -/
theorem circuit_interpreter_matches_spec_witness :
    specCircuitImpedance ['r', '(', 'c', 'r', ')'] [1] [5, 1e-6, 7] =
      CircuitImpedance ['r', '(', 'c', 'r', ')'] [1] [5, 1e-6, 7] :=
  circuit_interpreter_matches_spec ['r', '(', 'c', 'r', ')'] [1] [5, 1e-6, 7] (by decide)

/-- Reading past the erased index shifts by one. -/
theorem getD_eraseIdx_of_le (P : List ℝ) :
    ∀ (i j : ℕ), i ≤ j → (P.eraseIdx i).getD j 0 = P.getD (j + 1) 0 := by
  induction P with
  | nil => intro i j _; simp [List.eraseIdx]
  | cons a t ih =>
      intro i j hij
      cases i with
      | zero => simp [List.eraseIdx]
      | succ k =>
          cases j with
          | zero => omega
          | succ j2 =>
              simp only [List.eraseIdx, List.getD_cons_succ]
              exact ih k j2 (Nat.succ_le_succ_iff.mp hij)

/-- Reading below the erased index is unchanged. -/
theorem getD_eraseIdx_of_lt (P : List ℝ) :
    ∀ (i j : ℕ), j < i → (P.eraseIdx i).getD j 0 = P.getD j 0 := by
  induction P with
  | nil => intro i j _; simp [List.eraseIdx]
  | cons a t ih =>
      intro i j hji
      cases i with
      | zero => omega
      | succ k =>
          cases j with
          | zero => simp [List.eraseIdx]
          | succ j2 =>
              simp only [List.eraseIdx, List.getD_cons_succ]
              exact ih k j2 (Nat.succ_lt_succ_iff.mp hji)

/-- A character outside the element alphabet leaves mode, stack and
accumulator untouched and advances the parameter index by one. -/
theorem stepChar_unknown (values : List ℝ) (w : ℝ) (st : EvalState) (c : Char)
    (hc : c ∉ elementAlphabet) :
    stepChar values w st c = some ⟨st.mode, st.stack, st.tmp, st.i + 1⟩ := by
  simp only [elementAlphabet, List.mem_cons, List.not_mem_nil, or_false, not_or] at hc
  obtain ⟨h1, h2, h3, h4, h5, h6, h7, h8, h9, h10, h11⟩ := hc
  simp [stepChar, h1, h2, h3, h4, h5, h6, h7, h8, h9, h10, h11]

/-- Every successful step advances the parameter index by the advance of
its character. -/
theorem stepChar_some_i (values : List ℝ) (w : ℝ) (st : EvalState) (c : Char)
    (st2 : EvalState) (h : stepChar values w st c = some st2) :
    st2.i = st.i + charAdvance c := by
  obtain ⟨m0, stk0, tmp0, i0⟩ := st
  obtain ⟨m2, s2, t2, i2⟩ := st2
  show i2 = i0 + charAdvance c
  unfold stepChar at h
  unfold charAdvance
  dsimp only at h
  by_cases h1 : c = '('
  · rw [if_pos h1] at h
    rw [if_pos h1]
    injection h with hsome
    injection hsome with e1 e2 e3 e4
    omega
  rw [if_neg h1] at h
  rw [if_neg h1]
  by_cases h2 : c = ')'
  · rw [if_pos h2] at h
    rw [if_pos h2]
    rcases stk0 with _ | ⟨z, zs⟩
    · exact Option.noConfusion h
    · injection h with hsome
      injection hsome with e1 e2 e3 e4
      omega
  rw [if_neg h2] at h
  rw [if_neg h2]
  by_cases h3 : c = 'r'
  · rw [if_pos h3] at h
    rw [if_pos h3]
    injection h with hsome
    injection hsome with e1 e2 e3 e4
    omega
  rw [if_neg h3] at h
  rw [if_neg h3]
  by_cases h4 : c = 'c'
  · rw [if_pos h4] at h
    rw [if_pos h4]
    injection h with hsome
    injection hsome with e1 e2 e3 e4
    omega
  rw [if_neg h4] at h
  rw [if_neg h4]
  by_cases h5 : c = 'l'
  · rw [if_pos h5] at h
    rw [if_pos h5]
    injection h with hsome
    injection hsome with e1 e2 e3 e4
    omega
  rw [if_neg h5] at h
  rw [if_neg h5]
  by_cases h6 : c = 'w'
  · rw [if_pos h6] at h
    rw [if_pos h6]
    injection h with hsome
    injection hsome with e1 e2 e3 e4
    omega
  rw [if_neg h6] at h
  rw [if_neg h6]
  by_cases h7 : c = 'q'
  · rw [if_pos h7] at h
    rw [if_pos h7]
    injection h with hsome
    injection hsome with e1 e2 e3 e4
    omega
  rw [if_neg h7] at h
  rw [if_neg h7]
  by_cases h8 : c = 'o'
  · rw [if_pos h8] at h
    rw [if_pos h8]
    injection h with hsome
    injection hsome with e1 e2 e3 e4
    omega
  rw [if_neg h8] at h
  rw [if_neg h8]
  by_cases h9 : c = 't'
  · rw [if_pos h9] at h
    rw [if_pos h9]
    injection h with hsome
    injection hsome with e1 e2 e3 e4
    omega
  rw [if_neg h9] at h
  rw [if_neg h9]
  by_cases h10 : c = 'g'
  · rw [if_pos h10] at h
    rw [if_pos h10]
    injection h with hsome
    injection hsome with e1 e2 e3 e4
    omega
  rw [if_neg h10] at h
  rw [if_neg h10]
  by_cases h11 : c = 'f'
  · rw [if_pos h11] at h
    rw [if_pos h11]
    injection h with hsome
    injection hsome with e1 e2 e3 e4
    omega
  rw [if_neg h11] at h
  rw [if_neg h11]
  injection h with hsome
  injection hsome with e1 e2 e3 e4
  omega

theorem runCode_append (values : List ℝ) (w : ℝ) :
    ∀ (a b : List Char) (st : EvalState),
      runCode values w (a ++ b) st = (runCode values w a st).bind (runCode values w b) := by
  intro a
  induction a with
  | nil => intro b st; rfl
  | cons c rest ih =>
      intro b st
      simp only [List.cons_append, runCode]
      cases stepChar values w st c with
      | none => rfl
      | some st2 => exact ih b st2

/-- A completed run advances the parameter index by the advance of the
code. -/
theorem runCode_some_i (values : List ℝ) (w : ℝ) :
    ∀ (code : List Char) (st : EvalState) (t : EvalState),
      runCode values w code st = some t → t.i = st.i + advance code := by
  intro code
  induction code with
  | nil =>
      intro st t h
      cases h
      simp [advance]
  | cons c rest ih =>
      intro st t h
      simp only [runCode] at h
      cases hs : stepChar values w st c with
      | none => rw [hs] at h; cases h
      | some st2 =>
          rw [hs] at h
          have h1 := stepChar_some_i values w st c st2 hs
          have h2 := ih st2 t h
          simp only [advance, List.map_cons, List.sum_cons] at h2 ⊢
          omega

/-- A step reads the parameter list only at the indices the character
advances over, so two parameter lists agreeing there step identically. -/
theorem stepChar_congr (v1 v2 : List ℝ) (w : ℝ) (st : EvalState) (c : Char)
    (hagree : ∀ j, st.i ≤ j → j < st.i + charAdvance c → v1.getD j 0 = v2.getD j 0) :
    stepChar v1 w st c = stepChar v2 w st c := by
  by_cases h1 : c = '('
  · subst h1; simp [stepChar]
  by_cases h2 : c = ')'
  · subst h2; simp [stepChar]
  by_cases h3 : c = 'r'
  · subst h3
    have e0 := hagree st.i (le_refl _) (by simp [charAdvance])
    simp only [List.getD_eq_getElem?_getD] at e0
    simp [stepChar, e0]
  by_cases h4 : c = 'c'
  · subst h4
    have e0 := hagree st.i (le_refl _) (by simp [charAdvance])
    simp only [List.getD_eq_getElem?_getD] at e0
    simp [stepChar, e0]
  by_cases h5 : c = 'l'
  · subst h5
    have e0 := hagree st.i (le_refl _) (by simp [charAdvance])
    simp only [List.getD_eq_getElem?_getD] at e0
    simp [stepChar, e0]
  by_cases h6 : c = 'w'
  · subst h6
    have e0 := hagree st.i (le_refl _) (by simp [charAdvance])
    simp only [List.getD_eq_getElem?_getD] at e0
    simp [stepChar, e0]
  by_cases h7 : c = 'q'
  · subst h7
    have e0 := hagree st.i (le_refl _) (by simp [charAdvance])
    have e1 := hagree (st.i + 1) (by omega) (by simp [charAdvance])
    simp only [List.getD_eq_getElem?_getD] at e0 e1
    simp [stepChar, e0, e1]
  by_cases h8 : c = 'o'
  · subst h8
    have e0 := hagree st.i (le_refl _) (by simp [charAdvance])
    have e1 := hagree (st.i + 1) (by omega) (by simp [charAdvance])
    simp only [List.getD_eq_getElem?_getD] at e0 e1
    simp [stepChar, e0, e1]
  by_cases h9 : c = 't'
  · subst h9
    have e0 := hagree st.i (le_refl _) (by simp [charAdvance])
    have e1 := hagree (st.i + 1) (by omega) (by simp [charAdvance])
    simp only [List.getD_eq_getElem?_getD] at e0 e1
    simp [stepChar, e0, e1]
  by_cases h10 : c = 'g'
  · subst h10
    have e0 := hagree st.i (le_refl _) (by simp [charAdvance])
    have e1 := hagree (st.i + 1) (by omega) (by simp [charAdvance])
    simp only [List.getD_eq_getElem?_getD] at e0 e1
    simp [stepChar, e0, e1]
  by_cases h11 : c = 'f'
  · subst h11
    have e0 := hagree st.i (le_refl _) (by simp [charAdvance])
    have e1 := hagree (st.i + 1) (by omega) (by simp [charAdvance])
    have e2 := hagree (st.i + 2) (by omega) (by simp [charAdvance])
    simp only [List.getD_eq_getElem?_getD] at e0 e1 e2
    simp [stepChar, e0, e1, e2]
  simp [stepChar, h1, h2, h3, h4, h5, h6, h7, h8, h9, h10, h11]

theorem runCode_congr_values (v1 v2 : List ℝ) (w : ℝ) :
    ∀ (code : List Char) (st : EvalState),
      (∀ j, st.i ≤ j → j < st.i + advance code → v1.getD j 0 = v2.getD j 0) →
      runCode v1 w code st = runCode v2 w code st := by
  intro code
  induction code with
  | nil => intro st _; rfl
  | cons c rest ih =>
      intro st h
      have hstep : stepChar v1 w st c = stepChar v2 w st c :=
        stepChar_congr v1 v2 w st c (fun j hj1 hj2 => h j hj1
          (by simp only [advance, List.map_cons, List.sum_cons] at hj2 ⊢; omega))
      simp only [runCode, hstep]
      cases hs : stepChar v2 w st c with
      | none => rfl
      | some st2 =>
          apply ih st2
          intro j hj1 hj2
          have hi := stepChar_some_i v2 w st c st2 hs
          exact h j (by omega)
            (by simp only [advance, List.map_cons, List.sum_cons] at hj2 ⊢; omega)

/-- Running any code with the parameter list erased at an index at or
below the current position simulates the original run with every
parameter position shifted down by one. -/
theorem runCode_erase (w : ℝ) (P : List ℝ) (i0 : ℕ) :
    ∀ (code : List Char) (m : Mode) (stk : List ℂ) (tmp : ℂ) (j : ℕ), i0 ≤ j →
      runCode (P.eraseIdx i0) w code ⟨m, stk, tmp, j⟩ =
        (runCode P w code ⟨m, stk, tmp, j + 1⟩).map
          (fun t => ⟨t.mode, t.stack, t.tmp, t.i - 1⟩) := by
  intro code
  induction code with
  | nil => intro m stk tmp j hj; simp [runCode]
  | cons c rest ih =>
      intro m stk tmp j hj
      by_cases h1 : c = '('
      · subst h1
        simp only [runCode, stepChar]
        simp only [reduceIte]
        exact ih _ _ _ _ (by omega)
      by_cases h2 : c = ')'
      · subst h2
        rcases stk with _ | ⟨z, zs⟩
        · simp [runCode, stepChar]
        · simp only [runCode, stepChar]
          simp only [reduceIte]
          exact ih _ _ _ _ (by omega)
      by_cases h3 : c = 'r'
      · subst h3
        have e0 := getD_eraseIdx_of_le P i0 j hj
        simp only [List.getD_eq_getElem?_getD] at e0
        simp [runCode, stepChar, e0]
        exact ih _ _ _ _ (by omega)
      by_cases h4 : c = 'c'
      · subst h4
        have e0 := getD_eraseIdx_of_le P i0 j hj
        simp only [List.getD_eq_getElem?_getD] at e0
        simp [runCode, stepChar, e0]
        exact ih _ _ _ _ (by omega)
      by_cases h5 : c = 'l'
      · subst h5
        have e0 := getD_eraseIdx_of_le P i0 j hj
        simp only [List.getD_eq_getElem?_getD] at e0
        simp [runCode, stepChar, e0]
        exact ih _ _ _ _ (by omega)
      by_cases h6 : c = 'w'
      · subst h6
        have e0 := getD_eraseIdx_of_le P i0 j hj
        simp only [List.getD_eq_getElem?_getD] at e0
        simp [runCode, stepChar, e0]
        exact ih _ _ _ _ (by omega)
      by_cases h7 : c = 'q'
      · subst h7
        have e0 := getD_eraseIdx_of_le P i0 j hj
        have e1 := getD_eraseIdx_of_le P i0 (j + 1) (by omega)
        simp only [List.getD_eq_getElem?_getD] at e0 e1
        simp [runCode, stepChar, e0, e1]
        exact ih _ _ _ _ (by omega)
      by_cases h8 : c = 'o'
      · subst h8
        have e0 := getD_eraseIdx_of_le P i0 j hj
        have e1 := getD_eraseIdx_of_le P i0 (j + 1) (by omega)
        simp only [List.getD_eq_getElem?_getD] at e0 e1
        simp [runCode, stepChar, e0, e1]
        exact ih _ _ _ _ (by omega)
      by_cases h9 : c = 't'
      · subst h9
        have e0 := getD_eraseIdx_of_le P i0 j hj
        have e1 := getD_eraseIdx_of_le P i0 (j + 1) (by omega)
        simp only [List.getD_eq_getElem?_getD] at e0 e1
        simp [runCode, stepChar, e0, e1]
        exact ih _ _ _ _ (by omega)
      by_cases h10 : c = 'g'
      · subst h10
        have e0 := getD_eraseIdx_of_le P i0 j hj
        have e1 := getD_eraseIdx_of_le P i0 (j + 1) (by omega)
        simp only [List.getD_eq_getElem?_getD] at e0 e1
        simp [runCode, stepChar, e0, e1]
        exact ih _ _ _ _ (by omega)
      by_cases h11 : c = 'f'
      · subst h11
        have e0 := getD_eraseIdx_of_le P i0 j hj
        have e1 := getD_eraseIdx_of_le P i0 (j + 1) (by omega)
        have e2 := getD_eraseIdx_of_le P i0 (j + 2) (by omega)
        simp only [List.getD_eq_getElem?_getD] at e0 e1 e2
        simp [runCode, stepChar, e0, e1, e2]
        exact ih _ _ _ _ (by omega)
      simp only [runCode,
        stepChar_unknown (P.eraseIdx i0) w ⟨m, stk, tmp, j⟩ c
          (by simp [elementAlphabet, h1, h2, h3, h4, h5, h6, h7, h8, h9, h10, h11]),
        stepChar_unknown P w ⟨m, stk, tmp, j + 1⟩ c
          (by simp [elementAlphabet, h1, h2, h3, h4, h5, h6, h7, h8, h9, h10, h11])]
      exact ih _ _ _ _ (by omega)

/-- Counterexample to claim C6: on the code `xr` with parameters `[5, 7]`
the evaluator does not behave as if the unknown character `x` were removed:
`xr` yields impedance 7 (the resistor reads parameter index 1) while `r`
yields 5. -/
theorem unknown_char_not_skipped_cex :
    CircuitImpedance ['x', 'r'] [1] [5, 7] ≠ CircuitImpedance ['r'] [1] [5, 7] := by
  simp [CircuitImpedance, evalFreq, runCode, stepChar, sum, List.mapM, List.mapM.loop]

/-- Claim C6 as amended: a character outside the element alphabet leaves
mode, stack and accumulator untouched but advances the parameter index by
one (not zero), so the impedance of a code with an unknown character equals
that of the code with the character removed only after also deleting the
parameter entry at the index reached there. -/
theorem unknown_char_advances_param_index :
    (∀ (values : List ℝ) (w : ℝ) (st : EvalState) (x : Char), x ∉ elementAlphabet →
      stepChar values w st x = some ⟨st.mode, st.stack, st.tmp, st.i + 1⟩) ∧
    (∀ (a : List Char) (x : Char) (b : List Char) (freqs P : List ℝ),
      x ∉ elementAlphabet →
      CircuitImpedance (a ++ x :: b) freqs P =
        CircuitImpedance (a ++ b) freqs (P.eraseIdx (advance a))) := by
  refine ⟨fun values w st x hx => stepChar_unknown values w st x hx, ?_⟩
  intro a x b freqs P hx
  unfold CircuitImpedance
  have hfun : ∀ f : ℝ,
      evalFreq (a ++ x :: b) P f = evalFreq (a ++ b) (P.eraseIdx (advance a)) f := by
    intro f
    unfold evalFreq
    rw [runCode_append, runCode_append]
    have ha : runCode (P.eraseIdx (advance a)) (2 * Real.pi * f) a ⟨Mode.SERIES, [], 0, 0⟩ =
        runCode P (2 * Real.pi * f) a ⟨Mode.SERIES, [], 0, 0⟩ :=
      runCode_congr_values _ _ (2 * Real.pi * f) a ⟨Mode.SERIES, [], 0, 0⟩
        (fun j _ hj2 => getD_eraseIdx_of_lt P (advance a) j (by simpa using hj2))
    rw [ha]
    cases hra : runCode P (2 * Real.pi * f) a ⟨Mode.SERIES, [], 0, 0⟩ with
    | none => rfl
    | some t =>
        obtain ⟨tm, tstk, ttmp, ti⟩ := t
        have ht : ti = advance a := by
          simpa using runCode_some_i P (2 * Real.pi * f) a ⟨Mode.SERIES, [], 0, 0⟩
            ⟨tm, tstk, ttmp, ti⟩ hra
        subst ht
        simp only [Option.some_bind, runCode,
          stepChar_unknown P (2 * Real.pi * f) ⟨tm, tstk, ttmp, advance a⟩ x hx]
        rw [runCode_erase (2 * Real.pi * f) P (advance a) b tm tstk ttmp (advance a)
          (le_refl _)]
        cases runCode P (2 * Real.pi * f) b ⟨tm, tstk, ttmp, advance a + 1⟩ <;> rfl
  have hmap : (fun f : ℝ => (evalFreq (a ++ x :: b) P f).map (fun z => (z.re, z.im))) =
      (fun f : ℝ =>
        (evalFreq (a ++ b) (P.eraseIdx (advance a)) f).map (fun z => (z.re, z.im))) := by
    funext f
    rw [hfun f]
  rw [hmap]

/-- Witness for the amended C6 at the code rxr with parameters erased at
index 1. -/
theorem unknown_char_advances_param_index_witness :
    stepChar [5, 7] 1 ⟨Mode.SERIES, [], 0, 0⟩ 'x' = some ⟨Mode.SERIES, [], 0, 1⟩ ∧
    CircuitImpedance (['r'] ++ 'x' :: ['r']) [1] [5, 7] =
      CircuitImpedance (['r'] ++ ['r']) [1] ([5, 7].eraseIdx (advance ['r'])) :=
  ⟨unknown_char_advances_param_index.1 [5, 7] 1 ⟨Mode.SERIES, [], 0, 0⟩ 'x' (by decide),
   unknown_char_advances_param_index.2 ['r'] 'x' ['r'] [1] [5, 7] (by decide)⟩

end Goimp
